import Mathlib

/-!
Shallow embedding of the ontology-metric engine in `Evaluation.py`.

The triple store is modelled as a `List` of triples; the rdflib store holds
each triple at most once and iterates it in some fixed order, so every
accessor deduplicates its answers, which makes a plain list with `dedup`
a faithful model of the set-of-triples store. RDF terms are URIs, literals
or blank nodes; the code distinguishes URIs (`isinstance(o, URIRef)`).
-/

inductive Term where
  | uri (name : String)
  | lit (val : String)
  | bnode (id : String)
deriving DecidableEq

abbrev Triple := Term × Term × Term

def Term.isURI : Term → Bool
  | .uri _ => true
  | _ => false

/-- `RDF.type` -/
def rdfType : Term := .uri "rdf:type"
/-- `OWL.Class` -/
def owlClass : Term := .uri "owl:Class"
/-- `RDFS.Class` -/
def rdfsClass : Term := .uri "rdfs:Class"
/-- `RDFS.subClassOf` -/
def rdfsSubClassOf : Term := .uri "rdfs:subClassOf"
/-- `OWL.AllDisjointClasses` -/
def owlAllDisjointClasses : Term := .uri "owl:AllDisjointClasses"
/-- `OWL.members` -/
def owlMembers : Term := .uri "owl:members"
/-- `OWL.disjointWith` -/
def owlDisjointWith : Term := .uri "owl:disjointWith"
/-- `OWL.ObjectProperty` -/
def owlObjectProperty : Term := .uri "owl:ObjectProperty"
/-- `OWL.DatatypeProperty` -/
def owlDatatypeProperty : Term := .uri "owl:DatatypeProperty"
/-- `RDFS.domain` -/
def rdfsDomain : Term := .uri "rdfs:domain"
/-- `RDF.first` -/
def rdfFirst : Term := .uri "rdf:first"
/-- `RDF.rest` -/
def rdfRest : Term := .uri "rdf:rest"
/-- `RDF.nil` -/
def rdfNil : Term := .uri "rdf:nil"

/-- `g.subjects(p, o)`: distinct subjects of triples matching `(?, p, o)`. -/
def subjectsOf (g : List Triple) (p o : Term) : List Term :=
  ((g.filter fun t => decide (t.2.1 = p ∧ t.2.2 = o)).map (·.1)).dedup

/-- `g.objects(s, p)`: distinct objects of triples matching `(s, p, ?)`. -/
def objectsOf (g : List Triple) (s p : Term) : List Term :=
  ((g.filter fun t => decide (t.1 = s ∧ t.2.1 = p)).map (·.2.2)).dedup

/-- `g.subject_objects(p)`: distinct (subject, object) pairs matching `(?, p, ?)`. -/
def subjectObjectsOf (g : List Triple) (p : Term) : List (Term × Term) :=
  ((g.filter fun t => decide (t.2.1 = p)).map fun t => (t.1, t.2.2)).dedup

/-- `g.predicate_objects(s)`: distinct (predicate, object) pairs matching `(s, ?, ?)`. -/
def predicateObjectsOf (g : List Triple) (s : Term) : List (Term × Term) :=
  ((g.filter fun t => decide (t.1 = s)).map (·.2)).dedup

/-- `g.value(s, p)`: one object of `(s, p, ?)`, `None` when there is none
(rdflib picks an arbitrary matching triple; the list model picks the first). -/
def graphValue (g : List Triple) (s p : Term) : Option Term :=
  (objectsOf g s p).head?

/-- `classes`: subjects typed `owl:Class` or `rdfs:Class`
(`Evaluation.py` lines 14-15). -/
def classesList (g : List Triple) : List Term :=
  (subjectsOf g rdfType owlClass ++ subjectsOf g rdfType rdfsClass).dedup

def classesFinset (g : List Triple) : Finset Term :=
  (classesList g).toFinset

/-- `instances = all_typed - classes` (`Evaluation.py` lines 16-17). -/
def instancesList (g : List Triple) : List Term :=
  (((g.filter fun t => decide (t.2.1 = rdfType)).map (·.1)).dedup).filter
    fun s => decide (s ∉ classesList g)

def instancesFinset (g : List Triple) : Finset Term :=
  (instancesList g).toFinset

/-- `obj_props` (`Evaluation.py` line 51). -/
def objPropsList (g : List Triple) : List Term :=
  subjectsOf g rdfType owlObjectProperty

def objPropsFinset (g : List Triple) : Finset Term :=
  (objPropsList g).toFinset

/-- `data_props` (`Evaluation.py` line 52). -/
def dataPropsList (g : List Triple) : List Term :=
  subjectsOf g rdfType owlDatatypeProperty

/-- `subclass_triples` (`Evaluation.py` lines 20-23): subject/object pairs of
`rdfs:subClassOf` triples with both ends in `classes`. -/
def subclassPairs (g : List Triple) : List (Term × Term) :=
  (subjectObjectsOf g rdfsSubClassOf).filter fun so =>
    decide (so.1 ∈ classesList g ∧ so.2 ∈ classesList g)

/-- `num_subclasses` (`Evaluation.py` line 24). -/
def numSubclasses (g : List Triple) : Nat :=
  (subclassPairs g).length

/-- `Collection(g, node)` / `graph.items`: walk the `rdf:first` / `rdf:rest`
linked list. rdflib stops at a falsy node and raises on a cyclic `rdf:rest`
chain; an acyclic chain has at most `g.length` rest links, so fuel
`g.length + 1` reproduces rdflib on every well-formed collection. -/
def collectionItems (g : List Triple) : Nat → Option Term → List Term
  | _, none => []
  | 0, some _ => []
  | fuel + 1, some node =>
    (match graphValue g node rdfFirst with
     | some item => [item]
     | none => []) ++ collectionItems g fuel (graphValue g node rdfRest)

/-- The `owl:disjointWith` triples synthesized from one `owl:AllDisjointClasses`
node `bn` (`Evaluation.py` lines 30-37). -/
def disjointGroupPairs (g : List Triple) (bn : Term) : List Triple :=
  let items := collectionItems g (g.length + 1) (graphValue g bn owlMembers)
  (items.map fun a => items.filterMap fun b =>
    if a ≠ b ∧ a ∈ classesList g ∧ b ∈ classesList g then
      some (a, owlDisjointWith, b)
    else none).flatten

/-- `extra_disjoints` (`Evaluation.py` lines 28-37). -/
def extraDisjoints (g : List Triple) : Finset Triple :=
  (((subjectsOf g rdfType owlAllDisjointClasses).map fun bn =>
    disjointGroupPairs g bn).flatten).toFinset

/-- The comprehension part of `noninherit_rels` (`Evaluation.py` lines 40-46). -/
def baseNoninherit (g : List Triple) : Finset Triple :=
  (g.filter fun t => decide (t.1 ∈ classesList g ∧ t.2.2.isURI = true ∧
    t.2.2 ∈ classesList g ∧ t.2.1 ≠ rdfsSubClassOf)).toFinset

/-- `noninherit_rels` (`Evaluation.py` line 47). -/
def noninheritRels (g : List Triple) : Finset Triple :=
  baseNoninherit g ∪ extraDisjoints g

/-- `num_noninherit` (`Evaluation.py` line 48). -/
def numNoninherit (g : List Triple) : Nat :=
  (noninheritRels g).card

def numClasses (g : List Triple) : Nat :=
  (classesFinset g).card

def numDataProps (g : List Triple) : Nat :=
  (dataPropsList g).length

/-- `class_instances[c]` (`Evaluation.py` lines 55-59): the number of
instances carrying a type triple to `c`; only classes get an entry, every
other key reads back as the defaultdict value `0`. -/
def classInstances (g : List Triple) (c : Term) : Nat :=
  if c ∈ classesFinset g then
    ((instancesFinset g).filter fun i => (i, rdfType, c) ∈ g).card
  else 0

/-- `relationship_richness` (`Evaluation.py` lines 72-74). -/
def relationshipRichness (ni nsc : Nat) : ℚ :=
  if 0 < ni + nsc then (ni : ℚ) / ((ni : ℚ) + (nsc : ℚ)) else 0

/-- `inheritance_richness` (`Evaluation.py` lines 76-77). -/
def inheritanceRichness (nsc ncl : Nat) : ℚ :=
  if 0 < ncl then (nsc : ℚ) / (ncl : ℚ) else 0

/-- `attribute_richness` (`Evaluation.py` lines 79-80). -/
def attributeRichness (ndp ncl : Nat) : ℚ :=
  if 0 < ncl then (ndp : ℚ) / (ncl : ℚ) else 0

/-- `class_richness` (`Evaluation.py` lines 83-85): the keys of
`class_instances` are exactly the classes with a positive count. -/
def classRichness (ncl : Nat) (g : List Triple) : ℚ :=
  if 0 < ncl then
    (((classesFinset g).filter fun c => 0 < classInstances g c).card : ℚ) / (ncl : ℚ)
  else 0

/-- The inner double loop of `class_connectivity` for one subject
(`Evaluation.py` lines 93-95): distinct predicate/object pairs whose object
is a URI with some type triple. -/
def instanceLinks (g : List Triple) (inst : Term) : Nat :=
  ((predicateObjectsOf g inst).filter fun po =>
    po.2.isURI && g.any fun u => decide (u.1 = po.2 ∧ u.2.1 = rdfType)).length

/-- `class_connectivity(g, classes)[cls]` (`Evaluation.py` lines 88-97). -/
def classConnectivity (g : List Triple) (cls : Term) : Nat :=
  ((subjectsOf g rdfType cls).map fun inst => instanceLinks g inst).sum

/-- `subclass_map[c]` (`Evaluation.py` lines 102-105): the direct subclasses
of `c`, both ends restricted to `classes`. -/
def childrenOf (g : List Triple) (c : Term) : List Term :=
  ((subclassPairs g).filter fun so => decide (so.2 = c)).map (·.1)

/-- The `while queue` loop of `class_importance` (`Evaluation.py` lines
110-116): pop the front, skip visited nodes, push the direct subclasses.
Fuel makes the recursion structural; `importanceFuel` below always
suffices, which is exactly the termination argument for the Python loop. -/
def importanceBFS (children : Term → List Term) :
    Nat → List Term → Finset Term → Option (Finset Term)
  | _, [], visited => some visited
  | 0, _ :: _, _ => none
  | fuel + 1, c :: rest, visited =>
    if c ∈ visited then importanceBFS children fuel rest visited
    else importanceBFS children fuel (rest ++ children c) (insert c visited)

def importanceFuel (g : List Triple) : Nat :=
  1 + (classesFinset g).sum fun c => 1 + (childrenOf g c).length

/-- The `subtree` set computed for `cls` by `class_importance`. -/
def subtreeOf (g : List Triple) (cls : Term) : Finset Term :=
  (importanceBFS (childrenOf g) (importanceFuel g) [cls] ∅).getD ∅

/-- `total_instances = sum(class_instances.values())` (`Evaluation.py`
line 106): classes absent from the defaultdict contribute `0`. -/
def totalInstances (g : List Triple) : Nat :=
  (classesFinset g).sum fun c => classInstances g c

/-- `class_importance(g, classes, class_instances)[cls]` (`Evaluation.py`
lines 100-119). -/
def classImportance (g : List Triple) (cls : Term) : ℚ :=
  if 0 < totalInstances g then
    (((subtreeOf g cls).sum fun c => classInstances g c : Nat) : ℚ) /
      (totalInstances g : ℚ)
  else 0

/-- Does triple `t` link two instances through an object property?
This is the guard building `adj` in `cohesion` (`Evaluation.py` line 126). -/
def isInstanceLink (g : List Triple) (t : Triple) : Bool :=
  decide (t.2.1 ∈ objPropsList g ∧ t.1 ∈ instancesList g ∧
    t.2.2.isURI = true ∧ t.2.2 ∈ instancesList g)

/-- `adj[x]` (`Evaluation.py` lines 124-128): undirected neighbours of `x`. -/
def adjacencyOf (g : List Triple) (x : Term) : List Term :=
  (((g.filter fun t => isInstanceLink g t && decide (t.1 = x)).map (·.2.2)) ++
   ((g.filter fun t => isInstanceLink g t && decide (t.2.2 = x)).map (·.1))).dedup

/-- The inner `while queue` loop of `cohesion` (`Evaluation.py` lines
137-142). Python pushes and pops at one end of the list, a stack; the model
pushes and pops at the front. Neighbours are marked visited when pushed.
Fuel makes the loop structural; `cohesionFuel` always suffices. -/
def componentDFS (adjacency : Term → List Term) :
    Nat → List Term → Finset Term → Option (Finset Term)
  | _, [], visited => some visited
  | 0, _ :: _, _ => none
  | fuel + 1, curr :: rest, visited =>
    let st := (adjacency curr).foldl
      (fun (acc : List Term × Finset Term) nbr =>
        if nbr ∈ acc.2 then acc else (nbr :: acc.1, insert nbr acc.2))
      (rest, visited)
    componentDFS adjacency fuel st.1 st.2

def cohesionFuel (g : List Triple) : Nat :=
  1 + (instancesFinset g).card

/-- The outer `for inst in instances` loop of `cohesion` (`Evaluation.py`
lines 131-142). -/
def cohesionLoop (adjacency : Term → List Term) (fuel : Nat) :
    List Term → Finset Term → Nat → Option Nat
  | [], _, comps => some comps
  | inst :: rest, visited, comps =>
    if inst ∈ visited then cohesionLoop adjacency fuel rest visited comps
    else
      match componentDFS adjacency fuel [inst] (insert inst visited) with
      | none => none
      | some v => cohesionLoop adjacency fuel rest v (comps + 1)

def cohesionOpt (g : List Triple) : Option Nat :=
  cohesionLoop (adjacencyOf g) (cohesionFuel g) (instancesList g) ∅ 0

/-- `cohesion(g, instances, obj_props)` (`Evaluation.py` lines 122-143). -/
def cohesion (g : List Triple) : Nat :=
  (cohesionOpt g).getD 0

/-- `schema_props[cls]` (`Evaluation.py` lines 148-152): object properties
whose declared `rdfs:domain` is `cls`; only classes get an entry. -/
def schemaDomainProps (g : List Triple) (cls : Term) : Finset Term :=
  if cls ∈ classesFinset g then
    (objPropsFinset g).filter fun p => (p, rdfsDomain, cls) ∈ g
  else ∅

/-- `inst_usage[cls]` (`Evaluation.py` lines 154-159): object properties
appearing on any subject typed `cls`. -/
def usedProps (g : List Triple) (cls : Term) : Finset Term :=
  (objPropsFinset g).filter fun p =>
    ∃ inst ∈ subjectsOf g rdfType cls, ∃ t ∈ g, t.1 = inst ∧ t.2.1 = p

/-- `per_class_relationship_richness(g, classes, obj_props)[cls]`
(`Evaluation.py` lines 146-166). -/
def perClassRelationshipRichness (g : List Triple) (cls : Term) : ℚ :=
  if schemaDomainProps g cls = ∅ then 0
  else ((usedProps g cls).card : ℚ) / ((schemaDomainProps g cls).card : ℚ)

/-! ## Membership characterizations of the extracted sets -/

theorem mem_subjectsOf {g : List Triple} {p o x : Term} :
    x ∈ subjectsOf g p o ↔ (x, p, o) ∈ g := by
  simp only [subjectsOf, List.mem_dedup, List.mem_map, List.mem_filter,
    decide_eq_true_eq]
  constructor
  · rintro ⟨⟨a, b, c⟩, ⟨hg, hp, ho⟩, rfl⟩
    subst hp; subst ho; exact hg
  · intro hg
    exact ⟨(x, p, o), ⟨hg, rfl, rfl⟩, rfl⟩

theorem mem_classesList {g : List Triple} {c : Term} :
    c ∈ classesList g ↔
      (c, rdfType, owlClass) ∈ g ∨ (c, rdfType, rdfsClass) ∈ g := by
  simp [classesList, mem_subjectsOf]

theorem mem_classesFinset {g : List Triple} {c : Term} :
    c ∈ classesFinset g ↔ c ∈ classesList g := by
  simp [classesFinset]

theorem mem_instancesList {g : List Triple} {x : Term} :
    x ∈ instancesList g ↔
      (∃ o, (x, rdfType, o) ∈ g) ∧ x ∉ classesList g := by
  simp only [instancesList, List.mem_filter, List.mem_dedup, List.mem_map,
    decide_eq_true_eq]
  constructor
  · rintro ⟨⟨⟨a, b, c⟩, ⟨hg, hb⟩, rfl⟩, hncl⟩
    subst hb
    exact ⟨⟨c, hg⟩, hncl⟩
  · rintro ⟨⟨o, hg⟩, hncl⟩
    exact ⟨⟨(x, rdfType, o), ⟨hg, rfl⟩, rfl⟩, hncl⟩

theorem instancesList_nodup (g : List Triple) : (instancesList g).Nodup :=
  (List.nodup_dedup _).filter _

theorem mem_instancesFinset {g : List Triple} {x : Term} :
    x ∈ instancesFinset g ↔
      (∃ o, (x, rdfType, o) ∈ g) ∧ x ∉ classesList g := by
  simp [instancesFinset, mem_instancesList]

theorem mem_objPropsList {g : List Triple} {p : Term} :
    p ∈ objPropsList g ↔ (p, rdfType, owlObjectProperty) ∈ g := by
  simp [objPropsList, mem_subjectsOf]

theorem mem_subclassPairs {g : List Triple} {a b : Term} :
    (a, b) ∈ subclassPairs g ↔
      (a, rdfsSubClassOf, b) ∈ g ∧ a ∈ classesList g ∧ b ∈ classesList g := by
  simp only [subclassPairs, subjectObjectsOf, List.mem_filter, List.mem_dedup,
    List.mem_map, decide_eq_true_eq, Prod.mk.injEq]
  constructor
  · rintro ⟨⟨⟨x, y, z⟩, ⟨hg, hy⟩, rfl, rfl⟩, ha, hb⟩
    subst hy
    exact ⟨hg, ha, hb⟩
  · rintro ⟨hg, ha, hb⟩
    exact ⟨⟨(a, rdfsSubClassOf, b), ⟨hg, rfl⟩, rfl, rfl⟩, ha, hb⟩

theorem subclassPairs_nodup (g : List Triple) : (subclassPairs g).Nodup :=
  (List.nodup_dedup _).filter _

/-! ## Termination and soundness of the importance breadth-first closure -/

/-- Pending cost of the `class_importance` loop: each unvisited node of `S`
still costs one pop plus one push per direct subclass. -/
def wsum (children : Term → List Term) (S visited : Finset Term) : Nat :=
  (S \ visited).sum fun c => 1 + (children c).length

theorem wsum_insert_mem {children : Term → List Term} {S visited : Finset Term}
    {c : Term} (hcS : c ∈ S) (hcv : c ∉ visited) :
    wsum children S visited =
      1 + (children c).length + wsum children S (insert c visited) := by
  have hmem : c ∈ S \ visited := Finset.mem_sdiff.mpr ⟨hcS, hcv⟩
  rw [wsum, wsum, Finset.sdiff_insert]
  exact (Finset.add_sum_erase _ _ hmem).symm

theorem wsum_insert_not_mem {children : Term → List Term}
    {S visited : Finset Term} {c : Term} (hcS : c ∉ S) :
    wsum children S (insert c visited) = wsum children S visited := by
  have h : S \ insert c visited = S \ visited := by
    ext x
    simp only [Finset.mem_sdiff, Finset.mem_insert]
    constructor
    · rintro ⟨hx, hni⟩
      exact ⟨hx, fun hv => hni (Or.inr hv)⟩
    · rintro ⟨hx, hnv⟩
      refine ⟨hx, ?_⟩
      rintro (rfl | hv)
      · exact hcS hx
      · exact hnv hv
  rw [wsum, wsum, h]

theorem importanceBFS_isSome (children : Term → List Term) (S : Finset Term)
    (hdead : ∀ c, c ∉ S → children c = []) :
    ∀ (fuel : Nat) (queue : List Term) (visited : Finset Term),
      queue.length + wsum children S visited ≤ fuel →
      (importanceBFS children fuel queue visited).isSome := by
  intro fuel
  induction fuel with
  | zero =>
    intro queue visited hle
    cases queue with
    | nil => simp [importanceBFS]
    | cons c rest => simp [List.length_cons] at hle
  | succ n ih =>
    intro queue visited hle
    cases queue with
    | nil => simp [importanceBFS]
    | cons c rest =>
      simp only [importanceBFS]
      by_cases hv : c ∈ visited
      · rw [if_pos hv]
        apply ih
        simp only [List.length_cons] at hle
        omega
      · rw [if_neg hv]
        by_cases hS : c ∈ S
        · apply ih
          have hw := @wsum_insert_mem children S visited c hS hv
          simp only [List.length_cons] at hle
          simp only [List.length_append]
          omega
        · rw [hdead c hS, List.append_nil]
          apply ih
          rw [wsum_insert_not_mem hS]
          simp only [List.length_cons] at hle
          omega

theorem importanceBFS_subset (children : Term → List Term) (S : Finset Term)
    (hchild : ∀ c, ∀ x ∈ children c, x ∈ S) :
    ∀ (fuel : Nat) (queue : List Term) (visited v : Finset Term),
      importanceBFS children fuel queue visited = some v →
      (∀ x ∈ queue, x ∈ S) → (∀ x ∈ visited, x ∈ S) → ∀ x ∈ v, x ∈ S := by
  intro fuel
  induction fuel with
  | zero =>
    intro queue visited v heq hq hvis
    cases queue with
    | nil =>
      simp only [importanceBFS, Option.some.injEq] at heq
      subst heq; exact hvis
    | cons c rest => simp [importanceBFS] at heq
  | succ n ih =>
    intro queue visited v heq hq hvis
    cases queue with
    | nil =>
      simp only [importanceBFS, Option.some.injEq] at heq
      subst heq; exact hvis
    | cons c rest =>
      simp only [importanceBFS] at heq
      by_cases hcv : c ∈ visited
      · rw [if_pos hcv] at heq
        exact ih rest visited v heq
          (fun x hx => hq x (List.mem_cons_of_mem _ hx)) hvis
      · rw [if_neg hcv] at heq
        refine ih _ _ v heq ?_ ?_
        · intro x hx
          rcases List.mem_append.mp hx with h | h
          · exact hq x (List.mem_cons_of_mem _ h)
          · exact hchild c x h
        · intro x hx
          rcases Finset.mem_insert.mp hx with rfl | h
          · exact hq x (List.mem_cons_self _ _)
          · exact hvis x h

theorem mem_childrenOf {g : List Triple} {c x : Term} :
    x ∈ childrenOf g c ↔ (x, c) ∈ subclassPairs g := by
  simp only [childrenOf, List.mem_map, List.mem_filter, decide_eq_true_eq]
  constructor
  · rintro ⟨⟨a, b⟩, ⟨hmem, hbc⟩, rfl⟩
    simp only at hbc
    subst hbc
    exact hmem
  · intro hmem
    exact ⟨(x, c), ⟨hmem, rfl⟩, rfl⟩

theorem childrenOf_mem_classes {g : List Triple} {c x : Term}
    (hx : x ∈ childrenOf g c) : x ∈ classesFinset g := by
  obtain ⟨-, hcl, -⟩ := mem_subclassPairs.mp (mem_childrenOf.mp hx)
  exact mem_classesFinset.mpr hcl

theorem childrenOf_eq_nil_of_not_mem {g : List Triple} {c : Term}
    (hc : c ∉ classesFinset g) : childrenOf g c = [] := by
  rw [childrenOf, List.map_eq_nil_iff]
  rw [List.filter_eq_nil_iff]
  rintro ⟨a, b⟩ hmem hcond
  rw [decide_eq_true_eq] at hcond
  simp only at hcond
  subst hcond
  obtain ⟨-, -, hb⟩ := mem_subclassPairs.mp hmem
  exact hc (mem_classesFinset.mpr hb)

theorem subtreeOf_spec (g : List Triple) (cls : Term) :
    importanceBFS (childrenOf g) (importanceFuel g) [cls] ∅ =
      some (subtreeOf g cls) := by
  have h : (importanceBFS (childrenOf g) (importanceFuel g) [cls] ∅).isSome := by
    apply importanceBFS_isSome (childrenOf g) (classesFinset g)
    · intro c hc
      exact childrenOf_eq_nil_of_not_mem hc
    · simp [wsum, importanceFuel, Finset.sdiff_empty]
  obtain ⟨v, hv⟩ := Option.isSome_iff_exists.mp h
  rw [hv, subtreeOf, hv]
  rfl

theorem subtreeOf_subset (g : List Triple) {cls : Term}
    (hcls : cls ∈ classesFinset g) : subtreeOf g cls ⊆ classesFinset g := by
  intro x hx
  refine importanceBFS_subset (childrenOf g) (classesFinset g)
    (fun c y hy => childrenOf_mem_classes hy) (importanceFuel g) [cls] ∅ _
    (subtreeOf_spec g cls) ?_ ?_ x hx
  · intro y hy
    rw [List.mem_singleton] at hy
    subst hy
    exact hcls
  · intro y hy
    exact absurd hy (Finset.not_mem_empty y)

/-! ## Termination and counting lemmas for the cohesion traversal -/

theorem mem_adjacencyOf {g : List Triple} {x n : Term}
    (hn : n ∈ adjacencyOf g x) : n ∈ instancesFinset g := by
  simp only [adjacencyOf, List.mem_dedup, List.mem_append, List.mem_map,
    List.mem_filter, Bool.and_eq_true, decide_eq_true_eq] at hn
  rcases hn with ⟨t, ⟨-, hlink, -⟩, rfl⟩ | ⟨t, ⟨-, hlink, -⟩, rfl⟩ <;>
    simp only [isInstanceLink, decide_eq_true_eq] at hlink
  · exact List.mem_toFinset.mpr hlink.2.2.2
  · exact List.mem_toFinset.mpr hlink.2.1

theorem componentDFS_push_bound (U : Finset Term) (l : List Term)
    (hl : ∀ n ∈ l, n ∈ U) (q : List Term) (v : Finset Term) :
    (l.foldl (fun (acc : List Term × Finset Term) nbr =>
        if nbr ∈ acc.2 then acc else (nbr :: acc.1, insert nbr acc.2)) (q, v)).1.length +
      (U \ (l.foldl (fun (acc : List Term × Finset Term) nbr =>
        if nbr ∈ acc.2 then acc else (nbr :: acc.1, insert nbr acc.2)) (q, v)).2).card ≤
      q.length + (U \ v).card := by
  induction l generalizing q v with
  | nil => simp
  | cons nbr rest ih =>
    simp only [List.foldl_cons]
    by_cases hnv : nbr ∈ v
    · rw [if_pos hnv]
      exact ih (fun m hm => hl m (List.mem_cons_of_mem _ hm)) q v
    · rw [if_neg hnv]
      refine le_trans (ih (fun m hm => hl m (List.mem_cons_of_mem _ hm)) _ _) ?_
      have hnU : nbr ∈ U \ v :=
        Finset.mem_sdiff.mpr ⟨hl nbr (List.mem_cons_self _ _), hnv⟩
      have hpos : 0 < (U \ v).card := Finset.card_pos.mpr ⟨nbr, hnU⟩
      rw [Finset.sdiff_insert, Finset.card_erase_of_mem hnU]
      simp only [List.length_cons]
      omega

theorem componentDFS_isSome (adjacency : Term → List Term) (U : Finset Term)
    (hadj : ∀ x, ∀ n ∈ adjacency x, n ∈ U) :
    ∀ (fuel : Nat) (queue : List Term) (visited : Finset Term),
      queue.length + (U \ visited).card ≤ fuel →
      (componentDFS adjacency fuel queue visited).isSome := by
  intro fuel
  induction fuel with
  | zero =>
    intro queue visited hle
    cases queue with
    | nil => simp [componentDFS]
    | cons c rest => simp [List.length_cons] at hle
  | succ n ih =>
    intro queue visited hle
    cases queue with
    | nil => simp [componentDFS]
    | cons curr rest =>
      simp only [componentDFS]
      apply ih
      refine le_trans (componentDFS_push_bound U (adjacency curr)
        (hadj curr) rest visited) ?_
      simp only [List.length_cons] at hle
      omega

theorem cohesionLoop_isSome (adjacency : Term → List Term) (U : Finset Term)
    (hadj : ∀ x, ∀ n ∈ adjacency x, n ∈ U) :
    ∀ (l : List Term) (visited : Finset Term) (comps : Nat),
      (cohesionLoop adjacency (1 + U.card) l visited comps).isSome := by
  intro l
  induction l with
  | nil => intro visited comps; simp [cohesionLoop]
  | cons inst rest ih =>
    intro visited comps
    simp only [cohesionLoop]
    by_cases hv : inst ∈ visited
    · rw [if_pos hv]
      exact ih visited comps
    · rw [if_neg hv]
      have hsome := componentDFS_isSome adjacency U hadj (1 + U.card)
        [inst] (insert inst visited) ?_
      · obtain ⟨v, hveq⟩ := Option.isSome_iff_exists.mp hsome
        rw [hveq]
        exact ih v (comps + 1)
      · have : (U \ insert inst visited).card ≤ U.card :=
          Finset.card_le_card (Finset.sdiff_subset)
        simp only [List.length_singleton]
        omega

theorem cohesionOpt_isSome (g : List Triple) : (cohesionOpt g).isSome := by
  rw [cohesionOpt, cohesionFuel]
  exact cohesionLoop_isSome (adjacencyOf g) (instancesFinset g)
    (fun x n hn => mem_adjacencyOf hn) (instancesList g) ∅ 0

theorem cohesionLoop_le (adjacency : Term → List Term) (fuel : Nat) :
    ∀ (l : List Term) (visited : Finset Term) (comps r : Nat),
      cohesionLoop adjacency fuel l visited comps = some r → comps ≤ r := by
  intro l
  induction l with
  | nil =>
    intro visited comps r heq
    simp only [cohesionLoop, Option.some.injEq] at heq
    omega
  | cons inst rest ih =>
    intro visited comps r heq
    simp only [cohesionLoop] at heq
    by_cases hv : inst ∈ visited
    · rw [if_pos hv] at heq
      exact ih visited comps r heq
    · rw [if_neg hv] at heq
      rcases hdfs : componentDFS adjacency fuel [inst] (insert inst visited) with
        _ | v
      · rw [hdfs] at heq
        exact absurd heq (by simp)
      · rw [hdfs] at heq
        have := ih v (comps + 1) r heq
        omega

theorem componentDFS_singleton (adjacency : Term → List Term)
    (h : ∀ x, adjacency x = []) (fuel : Nat) (hf : 0 < fuel) (x : Term)
    (v : Finset Term) : componentDFS adjacency fuel [x] v = some v := by
  cases fuel with
  | zero => omega
  | succ n =>
    simp only [componentDFS, h x, List.foldl_nil]

theorem cohesionLoop_no_links (adjacency : Term → List Term)
    (h : ∀ x, adjacency x = []) (fuel : Nat) (hf : 0 < fuel) :
    ∀ (l : List Term) (visited : Finset Term) (comps : Nat),
      l.Nodup → (∀ x ∈ l, x ∉ visited) →
      cohesionLoop adjacency fuel l visited comps = some (comps + l.length) := by
  intro l
  induction l with
  | nil =>
    intro visited comps _ _
    simp [cohesionLoop]
  | cons inst rest ih =>
    intro visited comps hnd hfresh
    simp only [cohesionLoop]
    rw [if_neg (hfresh inst (List.mem_cons_self _ _))]
    rw [componentDFS_singleton adjacency h fuel hf inst (insert inst visited)]
    show cohesionLoop adjacency fuel rest (insert inst visited) (comps + 1) =
      some (comps + (inst :: rest).length)
    rw [ih (insert inst visited) (comps + 1) hnd.of_cons ?_]
    · congr 1
      simp only [List.length_cons]
      omega
    · intro x hx hins
      rcases Finset.mem_insert.mp hins with rfl | hv
      · exact (List.nodup_cons.mp hnd).1 hx
      · exact hfresh x (List.mem_cons_of_mem _ hx) hv

theorem cohesion_no_links (g : List Triple)
    (h : ∀ t ∈ g, isInstanceLink g t = false) :
    cohesion g = (instancesFinset g).card := by
  have hadj : ∀ x, adjacencyOf g x = [] := by
    intro x
    rw [adjacencyOf]
    have h1 : (g.filter fun t => isInstanceLink g t && decide (t.1 = x)) = [] :=
      List.filter_eq_nil_iff.mpr (fun t ht => by simp [h t ht])
    have h2 : (g.filter fun t => isInstanceLink g t && decide (t.2.2 = x)) = [] :=
      List.filter_eq_nil_iff.mpr (fun t ht => by simp [h t ht])
    rw [h1, h2]
    rfl
  rw [cohesion, cohesionOpt]
  rw [cohesionLoop_no_links (adjacencyOf g) hadj (cohesionFuel g)
    (by rw [cohesionFuel]; omega) (instancesList g) ∅ 0
    (instancesList_nodup g) (fun x _ => Finset.not_mem_empty x)]
  rw [Option.getD_some, Nat.zero_add, instancesFinset]
  exact (List.toFinset_card_of_nodup (instancesList_nodup g)).symm

theorem cohesion_pos (g : List Triple) (h : instancesList g ≠ []) :
    1 ≤ cohesion g := by
  obtain ⟨inst, rest, heq⟩ := List.exists_cons_of_ne_nil h
  obtain ⟨r, hr⟩ := Option.isSome_iff_exists.mp (cohesionOpt_isSome g)
  have hc : cohesion g = r := by
    rw [cohesion, hr, Option.getD_some]
  rw [cohesionOpt, heq] at hr
  simp only [cohesionLoop] at hr
  rw [if_neg (Finset.not_mem_empty inst)] at hr
  rcases hdfs : componentDFS (adjacencyOf g) (cohesionFuel g) [inst]
      (insert inst ∅) with _ | v
  · rw [hdfs] at hr
    exact absurd hr (by simp)
  · rw [hdfs] at hr
    have := cohesionLoop_le (adjacencyOf g) (cohesionFuel g) rest v 1 r hr
    omega

/-! ## Aggregation lemmas -/

theorem totalInstances_sum_types (g : List Triple) :
    totalInstances g =
      (instancesFinset g).sum fun i =>
        ((classesFinset g).filter fun c => (i, rdfType, c) ∈ g).card := by
  rw [totalInstances]
  have h1 : ∀ c ∈ classesFinset g,
      classInstances g c =
        (instancesFinset g).sum fun i => if (i, rdfType, c) ∈ g then 1 else 0 := by
    intro c hc
    rw [classInstances, if_pos hc, Finset.card_filter]
  rw [Finset.sum_congr rfl h1, Finset.sum_comm]
  exact Finset.sum_congr rfl fun i _ => (Finset.card_filter _ _).symm

theorem classImportance_root (g : List Triple) (root : Term)
    (hroot : root ∈ classesFinset g) (htot : 0 < totalInstances g)
    (hcov : ∀ c ∈ classesFinset g,
      0 < classInstances g c → c ∈ subtreeOf g root) :
    classImportance g root = 1 := by
  rw [classImportance, if_pos htot]
  have hsum : ((subtreeOf g root).sum fun c => classInstances g c) =
      totalInstances g := by
    rw [totalInstances]
    apply Finset.sum_subset (subtreeOf_subset g hroot)
    intro x hx hnx
    by_contra hne
    exact hnx (hcov x hx (Nat.pos_of_ne_zero hne))
  rw [hsum, div_self]
  exact Nat.cast_ne_zero.mpr (Nat.pos_iff_ne_zero.mp htot)

/-! ## Empty class set -/

theorem classesFinset_of_no_classes {g : List Triple}
    (h : classesList g = []) : classesFinset g = ∅ := by
  rw [classesFinset, h]
  rfl

theorem numSubclasses_of_no_classes {g : List Triple}
    (h : classesList g = []) : numSubclasses g = 0 := by
  rw [numSubclasses, List.length_eq_zero, subclassPairs]
  apply List.filter_eq_nil_iff.mpr
  intro so hso
  simp [h]

theorem numNoninherit_of_no_classes {g : List Triple}
    (h : classesList g = []) : numNoninherit g = 0 := by
  rw [numNoninherit, Finset.card_eq_zero, Finset.eq_empty_iff_forall_not_mem]
  intro t ht
  rcases Finset.mem_union.mp ht with hb | he
  · rw [baseNoninherit, List.mem_toFinset, List.mem_filter,
      decide_eq_true_eq, h] at hb
    exact absurd hb.2.1 (List.not_mem_nil _)
  · rw [extraDisjoints, List.mem_toFinset, List.mem_flatten] at he
    obtain ⟨l, hl, htl⟩ := he
    rw [List.mem_map] at hl
    obtain ⟨bn, -, rfl⟩ := hl
    simp only [disjointGroupPairs, List.mem_flatten, List.mem_map] at htl
    obtain ⟨inner, ⟨a, -, rfl⟩, hti⟩ := htl
    rw [List.mem_filterMap] at hti
    obtain ⟨b, -, hsome⟩ := hti
    rw [h] at hsome
    simp at hsome

/-! ## The subclass-axiom set as the spec phrases it -/

/-- Pairs `(s, o)` such that `(s, subClassOf, o)` is a triple of the store
with both `s` and `o` in the class set, collected with set semantics. -/
def subclassAxiomSet (g : List Triple) : Finset (Term × Term) :=
  (g.toFinset.filter fun t =>
    t.2.1 = rdfsSubClassOf ∧ t.1 ∈ classesFinset g ∧
      t.2.2 ∈ classesFinset g).image fun t => (t.1, t.2.2)

theorem subclassPairs_toFinset (g : List Triple) :
    (subclassPairs g).toFinset = subclassAxiomSet g := by
  ext ⟨a, b⟩
  rw [List.mem_toFinset, mem_subclassPairs, subclassAxiomSet]
  simp only [Finset.mem_image, Finset.mem_filter, List.mem_toFinset,
    mem_classesFinset, Prod.mk.injEq]
  constructor
  · rintro ⟨hg, ha, hb⟩
    exact ⟨(a, rdfsSubClassOf, b), ⟨hg, rfl, ha, hb⟩, rfl, rfl⟩
  · rintro ⟨⟨x, y, z⟩, ⟨hg, hy, hx, hz⟩, rfl, rfl⟩
    subst hy
    exact ⟨hg, hx, hz⟩

/-! ## Concrete stores for the scenario claims -/

def tDog : Term := .uri "Dog"
def tCat : Term := .uri "Cat"
def tRex : Term := .uri "rex"
def tSpot : Term := .uri "spot"
def tFriendOf : Term := .uri "friendOf"
def tAnimal : Term := .uri "Animal"
def tP1 : Term := .uri "p1"
def tP2 : Term := .uri "p2"
def tV1 : Term := .uri "v1"
def tV2 : Term := .uri "v2"
def tA : Term := .uri "A"
def tB : Term := .uri "B"
def tC : Term := .uri "C"
def tX : Term := .uri "x"
def tGroup : Term := .bnode "grp"
def tCell1 : Term := .bnode "cell1"
def tCell2 : Term := .bnode "cell2"

/-- Scenario B of the spec: `rex` and `spot` typed `Dog`, `friendOf` an
object property with domain `Dog`, used once from `rex` to `spot`. -/
def scenarioB : List Triple :=
  [(tDog, rdfType, owlClass),
   (tRex, rdfType, tDog),
   (tSpot, rdfType, tDog),
   (tFriendOf, rdfType, owlObjectProperty),
   (tFriendOf, rdfsDomain, tDog),
   (tRex, tFriendOf, tSpot)]

/-- Scenario C of the spec: one `owl:AllDisjointClasses` group whose
member collection holds the classes `Cat` and `Dog`, and nothing else. -/
def scenarioC : List Triple :=
  [(tCat, rdfType, owlClass),
   (tDog, rdfType, owlClass),
   (tGroup, rdfType, owlAllDisjointClasses),
   (tGroup, owlMembers, tCell1),
   (tCell1, rdfFirst, tCat),
   (tCell1, rdfRest, tCell2),
   (tCell2, rdfFirst, tDog),
   (tCell2, rdfRest, rdfNil)]

/-- An instance of `Dog` using a domain-declared object property `p1` and a
second object property `p2` that declares no domain at all. -/
def exExcess : List Triple :=
  [(tDog, rdfType, owlClass),
   (tRex, rdfType, tDog),
   (tP1, rdfType, owlObjectProperty),
   (tP2, rdfType, owlObjectProperty),
   (tP1, rdfsDomain, tDog),
   (tRex, tP1, tV1),
   (tRex, tP2, tV2)]

/-- Multiple inheritance: `C` below both `A` and `B`, one instance typed `C`. -/
def exMulti : List Triple :=
  [(tA, rdfType, owlClass),
   (tB, rdfType, owlClass),
   (tC, rdfType, owlClass),
   (tC, rdfsSubClassOf, tA),
   (tC, rdfsSubClassOf, tB),
   (tX, rdfType, tC)]

/-- A single rooted tree `Dog < Animal` with one instance typed `Dog`. -/
def exTree : List Triple :=
  [(tAnimal, rdfType, owlClass),
   (tDog, rdfType, owlClass),
   (tDog, rdfsSubClassOf, tAnimal),
   (tRex, rdfType, tDog)]

/-- One instance carrying two recognized type assertions. -/
def exDouble : List Triple :=
  [(tA, rdfType, owlClass),
   (tB, rdfType, owlClass),
   (tX, rdfType, tA),
   (tX, rdfType, tB)]

/-- A store whose typed subjects never hit a class declaration. -/
def exNoClasses : List Triple := [(tRex, rdfType, tDog)]

/-- Two typed instances with no object-property link anywhere. -/
def exIsolated : List Triple :=
  [(tRex, rdfType, tDog), (tSpot, rdfType, tDog)]

/-! ## Claims -/

/-- C1 (counterexample): in Scenario B the code does not compute
ClassInstanceCount[Dog] = 2, ClassConnectivity[Dog] = 1 and Cohesion = 1;
the connectivity and cohesion values differ. -/
theorem c1_scenarioB_as_stated_false :
    ¬(classInstances scenarioB tDog = 2 ∧
      classConnectivity scenarioB tDog = 1 ∧ cohesion scenarioB = 1) := by
  decide

/-- C1 (amended): in Scenario B the computed results are
ClassInstanceCount[Dog] = 2, ClassConnectivity[Dog] = 3 (the two `rdf:type`
links to the typed node `Dog` are counted alongside the `friendOf` link) and
Cohesion = 2 (the declared property `friendOf` is itself a typed subject,
hence an extracted instance forming its own singleton component). -/
theorem c1_scenarioB_values :
    classInstances scenarioB tDog = 2 ∧
      classConnectivity scenarioB tDog = 3 ∧ cohesion scenarioB = 2 := by
  decide

/-- C2 (counterexample): PerClassRelationshipRichness is not bounded by 1:
when an instance of `Dog` uses an object property that no domain declares,
the used set outgrows the declared set and the ratio reaches 2. -/
theorem c2_ratio_exceeds_one :
    perClassRelationshipRichness exExcess tDog = 2 ∧
      ¬(perClassRelationshipRichness exExcess tDog ≤ 1) := by
  have hval : perClassRelationshipRichness exExcess tDog = 2 := by
    rw [perClassRelationshipRichness,
      if_neg (by decide : ¬schemaDomainProps exExcess tDog = ∅),
      (by decide : (usedProps exExcess tDog).card = 2),
      (by decide : (schemaDomainProps exExcess tDog).card = 1)]
    norm_num
  rw [hval]
  norm_num

/-- C2 (amended): for every triple set and class `c` the ratio is
nonnegative, and it is exactly 0 when no object property declares domain
`c`; it is not in general bounded above by 1. -/
theorem c2_perClassRichness_nonneg (g : List Triple) (c : Term) :
    0 ≤ perClassRelationshipRichness g c ∧
      (schemaDomainProps g c = ∅ → perClassRelationshipRichness g c = 0) := by
  constructor
  · rw [perClassRelationshipRichness]
    split
    · exact le_refl 0
    · exact div_nonneg (Nat.cast_nonneg _) (Nat.cast_nonneg _)
  · intro h
    rw [perClassRelationshipRichness, if_pos h]

theorem c2_perClassRichness_nonneg_witness :
    0 ≤ perClassRelationshipRichness exExcess tCat ∧
      perClassRelationshipRichness exExcess tCat = 0 :=
  ⟨(c2_perClassRichness_nonneg exExcess tCat).1,
   (c2_perClassRichness_nonneg exExcess tCat).2 (by decide)⟩

/-- C4: for every triple store the extracted InstanceSet and ClassSet are
disjoint: no identifier is in both. -/
theorem c4_instances_disjoint_classes (g : List Triple) (x : Term) :
    ¬(x ∈ instancesFinset g ∧ x ∈ classesFinset g) := by
  rintro ⟨hi, hc⟩
  exact (mem_instancesFinset.mp hi).2 (mem_classesFinset.mp hc)

/-- C5: the SubclassAxiom count equals the cardinality of the set of pairs
(s, o) such that (s, subClassOf, o) is a triple with both s and o in the
class set: duplicates collapse under set semantics and axioms referencing
non-class terms are excluded. -/
theorem c5_subclass_count_eq_axiom_set_card (g : List Triple) :
    numSubclasses g = (subclassAxiomSet g).card := by
  rw [← subclassPairs_toFinset, numSubclasses]
  exact (List.toFinset_card_of_nodup (subclassPairs_nodup g)).symm

/-- C6: a single pairwise-disjoint group with members Cat and Dog, both
classes and no other class-to-class relations, yields a
NonInheritanceRelation count of 2 (one synthesized disjointness relation
per ordered pair) and RelationshipRichness = 2 / (2 + SubclassCount). -/
theorem c6_disjoint_group_expansion :
    numNoninherit scenarioC = 2 ∧
      relationshipRichness (numNoninherit scenarioC) (numSubclasses scenarioC) =
        2 / (2 + (numSubclasses scenarioC : ℚ)) := by
  constructor
  · decide
  · rw [(by decide : numNoninherit scenarioC = 2),
      (by decide : numSubclasses scenarioC = 0)]
    norm_num [relationshipRichness]

/-- C3: with an empty extracted class set, every ratio metric over
|ClassSet| and every metric whose denominator becomes zero returns 0. -/
theorem c3_empty_classes_all_zero (g : List Triple)
    (h : classesList g = []) :
    relationshipRichness (numNoninherit g) (numSubclasses g) = 0 ∧
    inheritanceRichness (numSubclasses g) (numClasses g) = 0 ∧
    attributeRichness (numDataProps g) (numClasses g) = 0 ∧
    classRichness (numClasses g) g = 0 ∧
    (∀ c, classImportance g c = 0) ∧
    (∀ c, perClassRelationshipRichness g c = 0) := by
  have hfs := classesFinset_of_no_classes h
  have hnc : numClasses g = 0 := by
    rw [numClasses, hfs]
    rfl
  refine ⟨?_, ?_, ?_, ?_, ?_, ?_⟩
  · rw [numNoninherit_of_no_classes h, numSubclasses_of_no_classes h]
    rfl
  · rw [hnc]
    rfl
  · rw [hnc]
    rfl
  · rw [hnc, classRichness]
    rfl
  · intro c
    have htot : totalInstances g = 0 := by
      rw [totalInstances, hfs]
      rfl
    rw [classImportance, htot]
    rfl
  · intro c
    have hd : schemaDomainProps g c = ∅ := by
      rw [schemaDomainProps, hfs]
      simp
    rw [perClassRelationshipRichness, if_pos hd]

theorem c3_empty_classes_all_zero_witness :
    classesList exNoClasses = [] ∧
      relationshipRichness (numNoninherit exNoClasses) (numSubclasses exNoClasses) = 0 ∧
      classImportance exNoClasses tDog = 0 :=
  ⟨by decide, (c3_empty_classes_all_zero exNoClasses (by decide)).1,
   (c3_empty_classes_all_zero exNoClasses (by decide)).2.2.2.2.1 tDog⟩

/-- C7: Cohesion is at least 1 whenever the instance set is non-empty, and
equals |InstanceSet| whenever no object-property triple links two
instances. -/
theorem c7_cohesion_bounds (g : List Triple) :
    ((instancesFinset g).Nonempty → 1 ≤ cohesion g) ∧
    ((∀ t ∈ g, isInstanceLink g t = false) →
      cohesion g = (instancesFinset g).card) := by
  constructor
  · intro hne
    apply cohesion_pos
    intro hnil
    rw [instancesFinset, hnil] at hne
    exact absurd hne (by simp)
  · exact cohesion_no_links g

theorem c7_cohesion_bounds_witness :
    1 ≤ cohesion exIsolated ∧ cohesion exIsolated = (instancesFinset exIsolated).card :=
  ⟨(c7_cohesion_bounds exIsolated).1 (by decide),
   (c7_cohesion_bounds exIsolated).2 (by decide)⟩

theorem exMulti_importance_one (c : Term)
    (hsub : ((subtreeOf exMulti c).sum fun d => classInstances exMulti d) = 1) :
    classImportance exMulti c = 1 := by
  rw [classImportance, if_pos (by decide : 0 < totalInstances exMulti), hsub,
    (by decide : totalInstances exMulti = 1)]
  norm_num

theorem exMulti_importance_sum :
    ((classesFinset exMulti).sum fun c => classImportance exMulti c) = 3 := by
  have hA := exMulti_importance_one tA (by decide)
  have hB := exMulti_importance_one tB (by decide)
  have hC := exMulti_importance_one tC (by decide)
  rw [(by decide : classesFinset exMulti = {tA, tB, tC})]
  rw [Finset.sum_insert (by decide), Finset.sum_insert (by decide),
    Finset.sum_singleton, hA, hB, hC]
  norm_num

/-- C8: when every positively-populated class lies in the subclass closure
computed from `root` and the total count is positive, ClassImportance of
`root` is 1; and the importance values of all classes need not sum to 1
when subtrees overlap along multiple inheritance (in `exMulti` they sum
to 3). -/
theorem c8_root_importance (g : List Triple) (root : Term)
    (hroot : root ∈ classesFinset g) (htot : 0 < totalInstances g)
    (hcov : ∀ c ∈ classesFinset g,
      0 < classInstances g c → c ∈ subtreeOf g root) :
    classImportance g root = 1 ∧
      ((classesFinset exMulti).sum fun c => classImportance exMulti c) ≠ 1 := by
  refine ⟨classImportance_root g root hroot htot hcov, ?_⟩
  rw [exMulti_importance_sum]
  norm_num

theorem c8_root_importance_witness : classImportance exTree tAnimal = 1 :=
  (c8_root_importance exTree tAnimal (by decide) (by decide) (by decide)).1

/-- C9: both breadth-first closures terminate on every input, cycles
included: the importance traversal finishes within `importanceFuel` steps
and the cohesion traversal within `cohesionFuel` steps, because each marks
visited nodes and visits each node at most once. -/
theorem c9_traversals_terminate (g : List Triple) (cls : Term) :
    (importanceBFS (childrenOf g) (importanceFuel g) [cls] ∅).isSome = true ∧
      (cohesionOpt g).isSome = true := by
  constructor
  · rw [subtreeOf_spec g cls]
    rfl
  · exact cohesionOpt_isSome g

/-- C10: the ClassImportance denominator is the sum of ClassInstanceCount
over all classes, i.e. each instance counts once per recognized type
assertion, not once per instance; in `exDouble` one doubly-typed instance
makes the denominator 2 while only one distinct instance exists. -/
theorem c10_importance_denominator (g : List Triple) :
    totalInstances g =
      ((instancesFinset g).sum fun i =>
        ((classesFinset g).filter fun c => (i, rdfType, c) ∈ g).card) ∧
    totalInstances exDouble = 2 ∧ (instancesFinset exDouble).card = 1 := by
  refine ⟨totalInstances_sum_types g, by decide, by decide⟩
